import Mathlib

/-!
Shallow embedding of the Helix streaming response interpreter
(`src/index.tsx`): the `StreamProcessor` class, the stop flag handling in
`attachEventListeners`, and the turn-level error handling of
`handleFormSubmit`.  Text is modelled as `List Char`.
-/

namespace Helix

/-- Strings are modelled as lists of characters. -/
abbrev Str := List Char

/-- JavaScript whitespace (the set recognised by `String.prototype.trim`
and by the regex class `\s`): TAB, LF, VT, FF, CR, SPACE, NBSP and the
Unicode space separators. -/
def isJsSpace (c : Char) : Bool :=
  (9 ≤ c.val && c.val ≤ 13) || c.val = 32 || c.val = 160 || c.val = 0x1680 ||
  (0x2000 ≤ c.val && c.val ≤ 0x200A) || c.val = 0x2028 || c.val = 0x2029 ||
  c.val = 0x202F || c.val = 0x205F || c.val = 0x3000 || c.val = 0xFEFF

/-- JavaScript line terminators (the characters the regex `.` does not
match): LF, CR, LINE SEPARATOR, PARAGRAPH SEPARATOR. -/
def isLineTerm (c : Char) : Bool :=
  c.val = 10 || c.val = 13 || c.val = 0x2028 || c.val = 0x2029

/-- The regex word-character class `\w` = `[A-Za-z0-9_]`. -/
def isWordChar (c : Char) : Bool :=
  c.isAlpha || c.isDigit || c = '_'

/-- ASCII lowercasing of a string, as `String.prototype.toLowerCase`
acts on the ASCII range (marker language names are `\w+`, hence ASCII). -/
def lowerStr (s : Str) : Str := s.map Char.toLower

/-- JavaScript `String.prototype.trim`: drop leading and trailing
whitespace. -/
def trimStr (s : Str) : Str :=
  ((s.dropWhile isJsSpace).reverse.dropWhile isJsSpace).reverse

/-- The literal of the marker regex `/Language: (\w+)/i`, lowercased. -/
def markerLit : Str := "language: ".toList

/-- Try to match the marker regex `/Language: (\w+)/i` at the head of `s`:
returns `(matched substring, captured language word)` on success.  The
literal part is compared case-insensitively; `(\w+)` is greedy. -/
def matchMarkerAt (s : Str) : Option (Str × Str) :=
  let n := markerLit.length
  if lowerStr (s.take n) = markerLit then
    let word := (s.drop n).takeWhile isWordChar
    if word.isEmpty then none else some (s.take (n + word.length), word)
  else none

/-- Leftmost match of `/Language: (\w+)/i` in `s`, as
`String.prototype.match` finds it: `(matched substring, captured word)`. -/
def findMarker : Str → Option (Str × Str)
  | [] => none
  | c :: rest =>
    match matchMarkerAt (c :: rest) with
    | some r => some r
    | none => findMarker rest

/-- `String.prototype.replace(pat, '')` with a plain-string pattern:
remove the first occurrence of `pat`. -/
def replaceFirst (pat : Str) : Str → Str
  | [] => []
  | c :: rest =>
    if pat.isPrefixOf (c :: rest) then (c :: rest).drop pat.length
    else c :: replaceFirst pat rest

/-- Matching of the tail of the regex `/\[.*?\]\s/` after the opening
bracket: on input `rest` (the text after a `[`), return the number of
characters the lazy `.*?\]\s` consumes, or `none`.  The lazy `.*?`
prefers the earliest `]` that is followed by whitespace; `.` does not
cross line terminators. -/
def matchTail : Str → Option Nat
  | [] => none
  | c :: rest =>
    if c = ']' then
      match rest with
      | [] => none
      | d :: _ =>
        if isJsSpace d then some 2
        else match matchTail rest with
          | some n => some (n + 1)
          | none => none
    else if isLineTerm c then none
    else match matchTail rest with
      | some n => some (n + 1)
      | none => none

/-- Fuelled scan for `stripBrackets`; each step consumes at least one
character, so any fuel of at least the input length gives the full scan
(the fuel makes the recursion structural, hence kernel-reducible). -/
def stripBracketsF : Nat → Str → Str
  | _, [] => []
  | 0, s => s
  | fuel + 1, c :: rest =>
    if c = '[' then
      match matchTail rest with
      | some n => stripBracketsF fuel (rest.drop n)
      | none => c :: stripBracketsF fuel rest
    else c :: stripBracketsF fuel rest

/-- `String.prototype.replace(/\[.*?\]\s/g, '')` as used on the turn
error message in `handleFormSubmit`: remove every (leftmost-first,
non-overlapping) occurrence of a bracketed token followed by a
whitespace character. -/
def stripBrackets (s : Str) : Str := stripBracketsF s.length s

/-- One streaming chunk as `StreamProcessor.process` reads it: up to four
independently present payloads (`chunk.text`, `chunk.functionCalls`,
`chunk.executableCode`, `chunk.codeExecutionResult`).  Each entry of
`functionCalls` is modelled by its `args?.code` field (`none` when the
call has no code argument). -/
structure Fragment where
  text : Option Str
  functionCalls : Option (List (Option Str))
  executableCode : Option Str
  codeExecutionResult : Option Str
deriving DecidableEq, Repr

/-- The per-turn mutable state of `StreamProcessor`.  Cards are modelled
by the data their DOM element displays: `textCard` holds the string
passed to the markdown renderer for the card body, `toolCallCard` the
text content of its code preview, `codeCard` the language label fixed at
creation together with the code element's text content, `resultCard` the
result body text.  `elementsToHighlight` counts the code elements
registered for the deferred highlight pass. -/
structure SPState where
  accumulatedText : Str
  detectedLanguage : Str
  textCard : Option Str
  toolCallCard : Option Str
  codeCard : Option (Str × Str)
  resultCard : Option Str
  elementsToHighlight : Nat
deriving DecidableEq, Repr

/-- The state a fresh `StreamProcessor` starts a turn with
(`accumulatedText = ''`, `detectedLanguage = 'python'`, no cards). -/
def initSP : SPState :=
  { accumulatedText := []
    detectedLanguage := "python".toList
    textCard := none
    toolCallCard := none
    codeCard := none
    resultCard := none
    elementsToHighlight := 0 }

/-- `StreamProcessor.updateText`: skip absent or empty deltas
(`if (!text) return`); append the delta; match `/Language: (\w+)/i`
against the whole accumulated text; on a match record the lowercased
language, remove the first occurrence of the matched string and trim;
lazily create the text card and re-render its body from the accumulated
text. -/
def updateText (t : Option Str) (s : SPState) : SPState :=
  match t with
  | none => s
  | some txt =>
    if txt = [] then s
    else
      let acc0 := s.accumulatedText ++ txt
      match findMarker acc0 with
      | some (m, lang) =>
        let acc := trimStr (replaceFirst m acc0)
        { s with accumulatedText := acc
                 detectedLanguage := lowerStr lang
                 textCard := some acc }
      | none =>
        { s with accumulatedText := acc0, textCard := some acc0 }

/-- `StreamProcessor.updateToolCall`: skip only an absent list
(`if (!functionCalls) return` — an empty array is truthy and proceeds);
join each call's `args?.code || ''`; lazily create the tool-call card
(registering its code element for highlighting) and set the preview to
the joined code. -/
def updateToolCall (fcs : Option (List (Option Str))) (s : SPState) : SPState :=
  match fcs with
  | none => s
  | some calls =>
    let code := (calls.map (fun call => call.getD [])).flatten
    { s with toolCallCard := some code
             elementsToHighlight :=
               if s.toolCallCard.isSome then s.elementsToHighlight
               else s.elementsToHighlight + 1 }

/-- `StreamProcessor.updateExecutableCode`: skip absent or empty code
(`if (!executableCode) return`); remove any tool-call card; lazily
create the code card, whose language label is the current
`detectedLanguage` at creation time (registering its code element for
highlighting); replace the code element's content with the payload. -/
def updateExecutableCode (ec : Option Str) (s : SPState) : SPState :=
  match ec with
  | none => s
  | some c =>
    if c = [] then s
    else
      match s.codeCard with
      | some (lbl, _) =>
        { s with toolCallCard := none, codeCard := some (lbl, c) }
      | none =>
        { s with toolCallCard := none
                 codeCard := some (s.detectedLanguage, c)
                 elementsToHighlight := s.elementsToHighlight + 1 }

/-- `StreamProcessor.updateResult`: skip only an undefined payload
(`if (result === undefined) return` — the empty string proceeds); lazily
create the result card and set its body text to the payload verbatim. -/
def updateResult (r : Option Str) (s : SPState) : SPState :=
  match r with
  | none => s
  | some v => { s with resultCard := some v }

/-- One iteration of the loop in `StreamProcessor.process`: the four
channel updates in source order. -/
def processFragment (s : SPState) (f : Fragment) : SPState :=
  updateResult f.codeExecutionResult
    (updateExecutableCode f.executableCode
      (updateToolCall f.functionCalls
        (updateText f.text s)))

/-- `StreamProcessor.process` over a finite fragment stream with the
generation flag held true throughout. -/
def processFragments (s : SPState) (frags : List Fragment) : SPState :=
  frags.foldl processFragment s

/-- `StreamProcessor.process` with the cooperative stop flag: `flag i` is
the value of `state.isGenerating` read at the check preceding fragment
`i` (`if (!this.state.isGenerating) break`). -/
def processWithStop (flag : Nat → Bool) (s : SPState) (i : Nat) :
    List Fragment → SPState
  | [] => s
  | f :: rest =>
    if flag i then processWithStop flag (processFragment s f) (i + 1) rest
    else s

/-- The outcome of one turn's streaming call as `handleFormSubmit`
observes it: the fragments successfully delivered, and — when the stream
(or the initial `sendMessageStream` call) throws — the error message
raised after them.  A JavaScript error whose `message` is undefined is
modelled by the empty string (both are falsy under `error.message ||`). -/
structure StreamResult where
  frags : List Fragment
  failure : Option Str
deriving DecidableEq, Repr

/-- The fallback error text of `handleFormSubmit`. -/
def defaultErrMsg : Str := "An unknown error occurred.".toList

/-- The model message area after one turn: the interpreter cards, an
optional error card (its displayed message), the generation flag, and
whether the stop control is hidden again. -/
structure TurnUI where
  cards : SPState
  errorCard : Option Str
  isGenerating : Bool
  stopHidden : Bool
deriving DecidableEq, Repr

/-- `handleFormSubmit` around `StreamProcessor.process`: on success the
cards are the processed stream; on a thrown error the partial cards are
wiped (`modelMessage.innerHTML = ''`) and one error card is shown whose
body is `(error.message || 'An unknown error occurred.')`
with `/\[.*?\]\s/g` removed; the `finally` block clears `isGenerating`
and hides the stop button on both paths. -/
def handleFormSubmit (r : StreamResult) : TurnUI :=
  let s := processFragments initSP r.frags
  match r.failure with
  | none =>
    { cards := s, errorCard := none, isGenerating := false, stopHidden := true }
  | some msg =>
    let m := if msg = [] then defaultErrMsg else msg
    { cards := initSP
      errorCard := some (stripBrackets m)
      isGenerating := false
      stopHidden := true }

/-! ### Fallible-renderer variant (for the markdown failure claim)

`updateText` is an `async` method whose body awaits `marked.parse`, but
`process` invokes it without `await`; a rendering failure therefore
rejects the floating promise returned by `updateText` — the loop, and
the `try`/`catch` of `handleFormSubmit`, never see it.  The variant
below makes the renderer explicit and fallible and records such an
escaped rejection. -/

/-- `SPState` refined for a fallible markdown renderer: the text card's
presence and its rendered body markup are tracked separately (the body
is only written when the renderer succeeds), and `rejected` records that
an un-awaited `updateText` promise was rejected. -/
structure SPStateE where
  accumulatedText : Str
  detectedLanguage : Str
  textCardPresent : Bool
  textBodyHtml : Str
  toolCallCard : Option Str
  codeCard : Option (Str × Str)
  resultCard : Option Str
  elementsToHighlight : Nat
  rejected : Bool
deriving DecidableEq, Repr

/-- Fresh fallible-renderer state: no cards, empty body markup. -/
def initSPE : SPStateE :=
  { accumulatedText := []
    detectedLanguage := "python".toList
    textCardPresent := false
    textBodyHtml := []
    toolCallCard := none
    codeCard := none
    resultCard := none
    elementsToHighlight := 0
    rejected := false }

/-- `StreamProcessor.updateText` with the explicit renderer `md`:
everything up to and including card creation happens synchronously; the
body assignment `textBody.innerHTML = await marked.parse(...)` is
reached only when `md` succeeds, and a failure of `md` rejects the
floating promise (recorded in `rejected`) without touching the loop. -/
def updateTextE (md : Str → Except Str Str) (t : Option Str) (s : SPStateE) :
    SPStateE :=
  match t with
  | none => s
  | some txt =>
    if txt = [] then s
    else
      let acc0 := s.accumulatedText ++ txt
      let s1 :=
        match findMarker acc0 with
        | some (m, lang) =>
          { s with accumulatedText := trimStr (replaceFirst m acc0)
                   detectedLanguage := lowerStr lang }
        | none => { s with accumulatedText := acc0 }
      let s2 := { s1 with textCardPresent := true }
      match md s2.accumulatedText with
      | Except.ok html => { s2 with textBodyHtml := html }
      | Except.error _ => { s2 with rejected := true }

/-- `updateToolCall` lifted to the fallible-renderer state. -/
def updateToolCallE (fcs : Option (List (Option Str))) (s : SPStateE) :
    SPStateE :=
  match fcs with
  | none => s
  | some calls =>
    let code := (calls.map (fun call => call.getD [])).flatten
    { s with toolCallCard := some code
             elementsToHighlight :=
               if s.toolCallCard.isSome then s.elementsToHighlight
               else s.elementsToHighlight + 1 }

/-- `updateExecutableCode` lifted to the fallible-renderer state. -/
def updateExecutableCodeE (ec : Option Str) (s : SPStateE) : SPStateE :=
  match ec with
  | none => s
  | some c =>
    if c = [] then s
    else
      match s.codeCard with
      | some (lbl, _) =>
        { s with toolCallCard := none, codeCard := some (lbl, c) }
      | none =>
        { s with toolCallCard := none
                 codeCard := some (s.detectedLanguage, c)
                 elementsToHighlight := s.elementsToHighlight + 1 }

/-- `updateResult` lifted to the fallible-renderer state. -/
def updateResultE (r : Option Str) (s : SPStateE) : SPStateE :=
  match r with
  | none => s
  | some v => { s with resultCard := some v }

/-- One loop iteration with the explicit renderer: the un-awaited
`updateText` cannot abort the iteration, so the remaining channels run
regardless of a rendering failure. -/
def processFragmentE (md : Str → Except Str Str) (s : SPStateE)
    (f : Fragment) : SPStateE :=
  updateResultE f.codeExecutionResult
    (updateExecutableCodeE f.executableCode
      (updateToolCallE f.functionCalls
        (updateTextE md f.text s)))

/-- `StreamProcessor.process` with the explicit fallible renderer. -/
def processFragmentsE (md : Str → Except Str Str) (s : SPStateE)
    (frags : List Fragment) : SPStateE :=
  frags.foldl (processFragmentE md) s

/-- The turn-level UI for the fallible-renderer model. -/
structure TurnUIE where
  cards : SPStateE
  errorCard : Option Str
  isGenerating : Bool
  stopHidden : Bool
deriving DecidableEq, Repr

/-- `handleFormSubmit` with the explicit renderer: only errors thrown
through the awaited chain (the stream itself) reach the `catch`; a
rejection escaping from the un-awaited `updateText` does not. -/
def handleFormSubmitE (md : Str → Except Str Str) (r : StreamResult) :
    TurnUIE :=
  let s := processFragmentsE md initSPE r.frags
  match r.failure with
  | none =>
    { cards := s, errorCard := none, isGenerating := false, stopHidden := true }
  | some msg =>
    let m := if msg = [] then defaultErrMsg else msg
    { cards := initSPE
      errorCard := some (stripBrackets m)
      isGenerating := false
      stopHidden := true }

/-! ### Reference functions and formalized claim statements -/

/-- The text deltas of a fragment list (`chunk.text`, with an absent
delta read as the empty — hence ignored — delta). -/
def textsOf (frags : List Fragment) : List Str :=
  frags.map (fun f => f.text.getD [])

/-- A fragment carrying only a text delta. -/
def onlyText (f : Fragment) : Prop :=
  f.functionCalls = none ∧ f.executableCode = none ∧
  f.codeExecutionResult = none

instance (f : Fragment) : Decidable (onlyText f) :=
  inferInstanceAs (Decidable (f.functionCalls = none ∧
    f.executableCode = none ∧ f.codeExecutionResult = none))

/-- Text-channel reference step on `(accumulated text, language)`: skip
an empty delta; otherwise append it, and if the accumulated text then
contains a `Language: <name>` marker, record the lowercased name and
remove the first marker occurrence, trimming the result. -/
def textStep (p : Str × Str) (d : Str) : Str × Str :=
  if d = [] then p
  else
    let acc0 := p.1 ++ d
    match findMarker acc0 with
    | some (m, lang) => (trimStr (replaceFirst m acc0), lowerStr lang)
    | none => (acc0, p.2)

/-- Text-channel reference fold from the initial state. -/
def textRef (deltas : List Str) : Str × Str :=
  deltas.foldl textStep ([], "python".toList)

/-- The languages of the markers matched while folding the deltas, in
matching order (each matched marker is also stripped before the next
delta is appended). -/
def markerLogFrom : Str → List Str → List Str
  | _, [] => []
  | acc, d :: ds =>
    if d = [] then markerLogFrom acc ds
    else
      let acc0 := acc ++ d
      match findMarker acc0 with
      | some (m, lang) =>
        lowerStr lang :: markerLogFrom (trimStr (replaceFirst m acc0)) ds
      | none => markerLogFrom acc0 ds

/-- The marker log of a delta sequence, from the empty accumulator. -/
def markerLog (deltas : List Str) : List Str := markerLogFrom [] deltas

/-- A fragment whose executable-code payload actually fires the
executable-code channel: present and non-empty. -/
def effExec (f : Fragment) : Bool :=
  match f.executableCode with
  | some c => !c.isEmpty
  | none => false

/-- A fragment carrying a defined (possibly empty) tool-invocation
list. -/
def fcDefined (f : Fragment) : Bool := f.functionCalls.isSome

/-- A fragment carrying a non-empty tool-invocation list. -/
def fcNonempty (f : Fragment) : Bool :=
  match f.functionCalls with
  | some calls => !calls.isEmpty
  | none => false

/-- No fragment carrying a tool-invocation list arrives after a fragment
whose executable-code payload fires. -/
def noToolAfterExec : List Fragment → Bool
  | [] => true
  | f :: rest =>
    (!effExec f || rest.all (fun g => g.functionCalls.isNone)) &&
    noToolAfterExec rest

/-- C1 as stated: the text removed before rendering is the first marker
occurrence of the plain concatenation of all deltas, and nothing else. -/
def claimC1Text (deltas : List Str) : Str :=
  let c := deltas.flatten
  match findMarker c with
  | some (m, _) => replaceFirst m c
  | none => c

/-- Claim C1 as stated: for text-only fragment sequences, the rendered
text-card body is the markdown rendering of the concatenation of the
deltas with at most the first marker occurrence removed. -/
def claimC1 : Prop :=
  ∀ (md : Str → Str) (frags : List Fragment), (∀ f ∈ frags, onlyText f) →
    ∀ b, (processFragments initSP frags).textCard = some b →
      md b = md (claimC1Text (textsOf frags))

/-- Claim C2 as stated: the tool-call card exists iff some fragment
carrying a non-empty tool-invocation list has been processed with no
fragment carrying executable code after it. -/
def claimC2 : Prop :=
  ∀ frags : List Fragment,
    (processFragments initSP frags).toolCallCard.isSome = true ↔
      ∃ i : Fin frags.length, fcNonempty (frags.get i) = true ∧
        ∀ j : Fin frags.length, i.val < j.val →
          (frags.get j).executableCode = none

/-- Claim C3 as stated: for every fragment sequence the tool-call card
and the code card are never both present in the final state. -/
def claimC3 : Prop :=
  ∀ frags : List Fragment,
    ¬((processFragments initSP frags).toolCallCard.isSome = true ∧
      (processFragments initSP frags).codeCard.isSome = true)

/-- Claim C4 as stated (the persistence half, which is the refutable
universal): once a marker has set `detectedLanguage` away from the
fallback, processing further fragments never changes it. -/
def claimC4 : Prop :=
  ∀ l₁ l₂ : List Fragment,
    (processFragments initSP l₁).detectedLanguage ≠ "python".toList →
    (processFragments initSP (l₁ ++ l₂)).detectedLanguage =
      (processFragments initSP l₁).detectedLanguage

/-- The transformation claim C5 asserts for the error message: remove a
leading bracketed `[code]` token (with its following whitespace) when
the message starts with one, and change nothing otherwise. -/
def stripLeadingBracket (m : Str) : Str :=
  match m with
  | '[' :: rest =>
    match matchTail rest with
    | some n => rest.drop n
    | none => m
  | _ => m

/-- Claim C5 as stated (the message half): on a turn failure the error
card shows the message with any leading bracketed prefix removed. -/
def claimC5 : Prop :=
  ∀ (r : StreamResult) (msg : Str), r.failure = some msg → msg ≠ [] →
    (handleFormSubmit r).errorCard = some (stripLeadingBracket msg)

/-- A markdown renderer that always fails (the failing input for the
rendering-failure analysis). -/
def failMd : Str → Except Str Str := fun _ => Except.error "render failure".toList

/-! ### Channel-separation lemmas -/

theorem updateToolCall_text (fcs : Option (List (Option Str))) (s : SPState) :
    (updateToolCall fcs s).accumulatedText = s.accumulatedText ∧
    (updateToolCall fcs s).detectedLanguage = s.detectedLanguage ∧
    (updateToolCall fcs s).textCard = s.textCard := by
  cases fcs <;> simp [updateToolCall]

theorem updateExecutableCode_text (ec : Option Str) (s : SPState) :
    (updateExecutableCode ec s).accumulatedText = s.accumulatedText ∧
    (updateExecutableCode ec s).detectedLanguage = s.detectedLanguage ∧
    (updateExecutableCode ec s).textCard = s.textCard := by
  cases ec with
  | none => exact ⟨rfl, rfl, rfl⟩
  | some c =>
    simp only [updateExecutableCode]
    split
    · exact ⟨rfl, rfl, rfl⟩
    · split <;> exact ⟨rfl, rfl, rfl⟩

theorem updateResult_text (r : Option Str) (s : SPState) :
    (updateResult r s).accumulatedText = s.accumulatedText ∧
    (updateResult r s).detectedLanguage = s.detectedLanguage ∧
    (updateResult r s).textCard = s.textCard := by
  cases r <;> simp [updateResult]

theorem updateText_acc_lang (t : Option Str) (s : SPState) :
    (updateText t s).accumulatedText =
      (textStep (s.accumulatedText, s.detectedLanguage) (t.getD [])).1 ∧
    (updateText t s).detectedLanguage =
      (textStep (s.accumulatedText, s.detectedLanguage) (t.getD [])).2 := by
  cases t with
  | none => simp [updateText, textStep]
  | some txt =>
    by_cases h : txt = []
    · simp [updateText, textStep, h]
    · simp only [updateText, textStep, h, if_neg h, Option.getD_some]
      cases hfm : findMarker (s.accumulatedText ++ txt) with
      | none => simp
      | some r => obtain ⟨m, lang⟩ := r; simp

theorem processFragment_text (s : SPState) (f : Fragment) :
    (processFragment s f).accumulatedText =
      (textStep (s.accumulatedText, s.detectedLanguage) (f.text.getD [])).1 ∧
    (processFragment s f).detectedLanguage =
      (textStep (s.accumulatedText, s.detectedLanguage) (f.text.getD [])).2 ∧
    (processFragment s f).textCard = (updateText f.text s).textCard := by
  unfold processFragment
  obtain ⟨h1, h2, h3⟩ := updateResult_text f.codeExecutionResult
    (updateExecutableCode f.executableCode
      (updateToolCall f.functionCalls (updateText f.text s)))
  obtain ⟨h4, h5, h6⟩ := updateExecutableCode_text f.executableCode
    (updateToolCall f.functionCalls (updateText f.text s))
  obtain ⟨h7, h8, h9⟩ := updateToolCall_text f.functionCalls (updateText f.text s)
  obtain ⟨ha, hl⟩ := updateText_acc_lang f.text s
  exact ⟨by rw [h1, h4, h7, ha], by rw [h2, h5, h8, hl], by rw [h3, h6, h9]⟩

/-- The text channel of the full interpreter is the reference fold of
the text deltas: the other channels never touch `accumulatedText` or
`detectedLanguage`. -/
theorem processFragments_text (frags : List Fragment) :
    ∀ s : SPState,
      ((processFragments s frags).accumulatedText,
       (processFragments s frags).detectedLanguage) =
        List.foldl textStep (s.accumulatedText, s.detectedLanguage)
          (textsOf frags) := by
  induction frags with
  | nil => intro s; rfl
  | cons f rest ih =>
    intro s
    obtain ⟨h1, h2, _⟩ := processFragment_text s f
    have := ih (processFragment s f)
    simp only [processFragments, List.foldl_cons, textsOf, List.map_cons] at *
    rw [this, h1, h2]

/-- The text card, when present, always displays the rendering of the
current accumulated text. -/
theorem textCard_shows_acc (frags : List Fragment) :
    ∀ s : SPState,
      s.textCard = none ∨ s.textCard = some s.accumulatedText →
      (processFragments s frags).textCard = none ∨
      (processFragments s frags).textCard =
        some (processFragments s frags).accumulatedText := by
  induction frags with
  | nil => intro s h; exact h
  | cons f rest ih =>
    intro s h
    simp only [processFragments, List.foldl_cons] at *
    refine ih (processFragment s f) ?_
    obtain ⟨hal, _, htc⟩ := processFragment_text s f
    rw [htc, hal]
    cases f.text with
    | none => simpa [updateText, textStep] using h
    | some txt =>
      by_cases ht : txt = []
      · simpa [updateText, textStep, ht] using h
      · simp only [updateText, textStep, ht, if_neg ht, Option.getD_some]
        cases hfm : findMarker (s.accumulatedText ++ txt) with
        | none => simp
        | some r => obtain ⟨m, lang⟩ := r; simp

/-! ### Card-presence characterizations -/

theorem updateText_other (t : Option Str) (s : SPState) :
    (updateText t s).toolCallCard = s.toolCallCard ∧
    (updateText t s).codeCard = s.codeCard ∧
    (updateText t s).resultCard = s.resultCard := by
  cases t with
  | none => exact ⟨rfl, rfl, rfl⟩
  | some txt =>
    by_cases h : txt = []
    · simp [updateText, h]
    · simp only [updateText, if_neg h]
      cases hfm : findMarker (s.accumulatedText ++ txt) with
      | none => exact ⟨rfl, rfl, rfl⟩
      | some r => obtain ⟨m, lang⟩ := r; exact ⟨rfl, rfl, rfl⟩

theorem processFragment_toolCard (s : SPState) (f : Fragment) :
    (processFragment s f).toolCallCard.isSome =
      (!effExec f && (fcDefined f || s.toolCallCard.isSome)) := by
  obtain ⟨t, fc, ec, res⟩ := f
  unfold processFragment
  have htext := (updateText_other t s).1
  have hres : ∀ r u, (updateResult r u).toolCallCard = u.toolCallCard := by
    intro r u; cases r <;> rfl
  rw [hres]
  cases ec with
  | none =>
    cases fc with
    | none => simp [updateExecutableCode, updateToolCall, effExec, fcDefined, htext]
    | some calls => simp [updateExecutableCode, updateToolCall, effExec, fcDefined]
  | some c =>
    by_cases hc : c = []
    · subst hc
      cases fc with
      | none => simp [updateExecutableCode, updateToolCall, effExec, fcDefined, htext]
      | some calls =>
        simp [updateExecutableCode, updateToolCall, effExec, fcDefined]
    · have hce : c.isEmpty = false := by
        cases c with
        | nil => exact absurd rfl hc
        | cons a l => rfl
      simp only [updateExecutableCode, effExec, hce, if_neg hc, Bool.not_true,
        Bool.false_and]
      cases hcc : (updateToolCall fc (updateText t s)).codeCard <;> simp_all

theorem processFragment_codeCard (s : SPState) (f : Fragment) :
    (processFragment s f).codeCard.isSome =
      (effExec f || s.codeCard.isSome) := by
  obtain ⟨t, fc, ec, res⟩ := f
  unfold processFragment
  have htext := (updateText_other t s).2.1
  have htool : (updateToolCall fc (updateText t s)).codeCard = s.codeCard := by
    cases fc with
    | none => exact htext
    | some calls => simp [updateToolCall, htext]
  have hres : ∀ r u, (updateResult r u).codeCard = u.codeCard := by
    intro r u; cases r <;> rfl
  rw [hres]
  cases ec with
  | none => simp [updateExecutableCode, effExec, htool]
  | some c =>
    by_cases hc : c = []
    · subst hc
      simp [updateExecutableCode, effExec, htool]
    · have hce : c.isEmpty = false := by
        cases c with
        | nil => exact absurd rfl hc
        | cons a l => rfl
      simp only [updateExecutableCode, effExec, hce, if_neg hc, htool]
      cases hcc : s.codeCard with
      | none => simp
      | some p => obtain ⟨lbl, old⟩ := p; simp

/-- The code card exists after a run iff some processed fragment carried
a non-empty executable-code payload (or the card already existed). -/
theorem processFragments_codeCard (frags : List Fragment) :
    ∀ s : SPState,
      (processFragments s frags).codeCard.isSome =
        (frags.any effExec || s.codeCard.isSome) := by
  induction frags with
  | nil => intro s; simp [processFragments]
  | cons f rest ih =>
    intro s
    simp only [processFragments, List.foldl_cons, List.any_cons] at *
    rw [ih (processFragment s f), processFragment_codeCard]
    cases effExec f <;> simp

/-- The tool-call card exists after a run iff, among the fragments after
the last one whose executable-code payload fired, some fragment carried
a defined invocation list (or the card already existed and no
executable code fired at all). -/
theorem processFragments_toolCard (frags : List Fragment) :
    ∀ s : SPState,
      (processFragments s frags).toolCallCard.isSome =
        (((frags.reverse.takeWhile (fun f => !effExec f)).any fcDefined) ||
          (!frags.any effExec && s.toolCallCard.isSome)) := by
  induction frags using List.reverseRecOn with
  | nil => intro s; simp [processFragments]
  | append_singleton l f ih =>
    intro s
    simp only [processFragments, List.foldl_append, List.foldl_cons,
      List.foldl_nil, List.reverse_append, List.reverse_cons,
      List.reverse_nil, List.nil_append, List.cons_append,
      List.takeWhile, List.any_append, List.any_cons, List.any_nil] at *
    rw [processFragment_toolCard, ih s]
    cases hef : effExec f <;> simp_all [Bool.or_assoc]

/-- The text card exists after a run iff some processed fragment carried
a non-empty text delta (or the card already existed). -/
theorem processFragments_textCard (frags : List Fragment) :
    ∀ s : SPState,
      (processFragments s frags).textCard.isSome =
        (frags.any (fun f => !(f.text.getD []).isEmpty) ||
          s.textCard.isSome) := by
  induction frags with
  | nil => intro s; simp [processFragments]
  | cons f rest ih =>
    intro s
    simp only [processFragments, List.foldl_cons, List.any_cons] at *
    rw [ih (processFragment s f)]
    have htc := (processFragment_text s f).2.2
    have hstep : (processFragment s f).textCard.isSome =
        (!(f.text.getD []).isEmpty || s.textCard.isSome) := by
      rw [htc]
      cases f.text with
      | none => simp [updateText]
      | some txt =>
        by_cases h : txt = []
        · simp [updateText, h]
        · have hne : txt.isEmpty = false := by
            cases txt with
            | nil => exact absurd rfl h
            | cons a l => rfl
          simp only [updateText, if_neg h, Option.getD_some, hne]
          cases hfm : findMarker (s.accumulatedText ++ txt) with
          | none => simp
          | some r => obtain ⟨m, lang⟩ := r; simp
    rw [hstep]
    cases (f.text.getD []).isEmpty <;> simp

/-- The result card exists after a run iff some processed fragment
carried a defined execution-result payload (or the card already
existed), and it then shows the last such payload. -/
theorem processFragment_resultCard (s : SPState) (f : Fragment) :
    (processFragment s f).resultCard =
      (match f.codeExecutionResult with
       | some v => some v
       | none => s.resultCard) := by
  obtain ⟨t, fc, ec, res⟩ := f
  unfold processFragment
  have htext := (updateText_other t s).2.2
  have htool : (updateToolCall fc (updateText t s)).resultCard =
      s.resultCard := by
    cases fc with
    | none => exact htext
    | some calls => simp [updateToolCall, htext]
  have hexec : (updateExecutableCode ec
      (updateToolCall fc (updateText t s))).resultCard = s.resultCard := by
    cases ec with
    | none => exact htool
    | some c =>
      by_cases hc : c = []
      · simp [updateExecutableCode, hc, htool]
      · simp only [updateExecutableCode, if_neg hc]
        cases hcc : (updateToolCall fc (updateText t s)).codeCard with
        | none => simpa using htool
        | some p => obtain ⟨lbl, old⟩ := p; simpa using htool
  cases res with
  | none => simpa [updateResult] using hexec
  | some v => simp [updateResult]

theorem processFragments_resultCard (frags : List Fragment) :
    ∀ s : SPState,
      (processFragments s frags).resultCard =
        (frags.foldl
          (fun acc f =>
            match f.codeExecutionResult with
            | some v => some v
            | none => acc) s.resultCard) := by
  induction frags with
  | nil => intro s; rfl
  | cons f rest ih =>
    intro s
    simp only [processFragments, List.foldl_cons] at *
    rw [ih (processFragment s f), processFragment_resultCard]

/-- The reference fold's language is the last matched marker, with the
initial language as fallback. -/
theorem textStep_lang_log (ds : List Str) :
    ∀ (acc lang : Str),
      (List.foldl textStep (acc, lang) ds).2 =
        (markerLogFrom acc ds).getLastD lang := by
  induction ds with
  | nil => intro acc lang; rfl
  | cons d rest ih =>
    intro acc lang
    by_cases hd : d = []
    · simp only [List.foldl_cons, textStep, markerLogFrom, hd, if_pos rfl]
      exact ih acc lang
    · simp only [List.foldl_cons, textStep, markerLogFrom, if_neg hd]
      cases hfm : findMarker (acc ++ d) with
      | none => simpa using ih (acc ++ d) lang
      | some r =>
        obtain ⟨m, lg⟩ := r
        simp only
        rw [ih (trimStr (replaceFirst m (acc ++ d))) (lowerStr lg),
          List.getLastD_cons]

/-- Splitting form of `noToolAfterExec`: once a firing executable-code
fragment has occurred, every later fragment has no invocation list. -/
theorem noToolAfterExec_split :
    ∀ l₁ l₂ : List Fragment, noToolAfterExec (l₁ ++ l₂) = true →
      ∀ g ∈ l₁, effExec g = true → ∀ f ∈ l₂, f.functionCalls = none := by
  intro l₁
  induction l₁ with
  | nil => intro l₂ h g hg; cases hg
  | cons a l ih =>
    intro l₂ h g hg hge
    simp only [List.cons_append, noToolAfterExec, Bool.and_eq_true,
      Bool.or_eq_true, Bool.not_eq_true'] at h
    rcases List.mem_cons.mp hg with hg | hg
    · subst hg
      rcases h.1 with hfalse | hall
      · rw [hge] at hfalse; cases hfalse
      · intro f hf
        have := List.all_eq_true.mp hall f (List.mem_append_right l hf)
        simpa [Option.isNone_iff_eq_none] using this
    · exact ih l₂ h.2 g hg hge

/-- The stop flag of a single user stop at boundary `k` lets exactly the
first `k` fragments be applied. -/
theorem processWithStop_take (frags : List Fragment) :
    ∀ (s : SPState) (i k : Nat),
      processWithStop (fun j => decide (j < k)) s i frags =
        processFragments s (frags.take (k - i)) := by
  induction frags with
  | nil => intro s i k; simp [processWithStop, processFragments]
  | cons f rest ih =>
    intro s i k
    by_cases h : i < k
    · have hk : k - i = (k - (i + 1)) + 1 := by omega
      simp only [processWithStop, decide_eq_true_eq, hk,
        List.take_succ_cons, processFragments, List.foldl_cons]
      rw [if_pos h]
      exact ih (processFragment s f) (i + 1) k
    · have hk : k - i = 0 := by omega
      simp only [processWithStop, decide_eq_true_eq, hk, List.take_zero,
        processFragments, List.foldl_nil]
      rw [if_neg h]

/-! ### Claim theorems -/

/-- C1, counterexample: the claim fails on the single delta
`"Language: js\nhello"` — the code trims the text after stripping the
marker, so the card body renders `"hello"`, not the un-trimmed
`"\nhello"` the claim's `concatenation minus marker` predicts. -/
theorem C1_counterexample : ¬claimC1 := by
  intro h
  have := h id [⟨some "Language: js\nhello".toList, none, none, none⟩]
    (by decide) "hello".toList (by decide)
  exact absurd this (by decide)

/-- C1 (amended): for every fragment sequence containing only text
deltas, the rendered text-card body equals the markdown rendering of the
fold of the deltas in which each non-empty delta is appended and then,
if a `Language: <name>` marker occurs in the accumulated text, its first
occurrence is removed and the result trimmed of surrounding whitespace —
the marker scan re-runs on every delta, so later markers are stripped
too. -/
theorem C1_amended_text_rendering (frags : List Fragment) (md : Str → Str)
    (_honly : ∀ f ∈ frags, onlyText f) (b : Str)
    (hb : (processFragments initSP frags).textCard = some b) :
    md b = md ((textRef (textsOf frags)).1) := by
  rcases textCard_shows_acc frags initSP (Or.inl rfl) with hnone | hsome
  · rw [hb] at hnone; cases hnone
  · rw [hb] at hsome
    have hacc : b = (processFragments initSP frags).accumulatedText :=
      Option.some.inj hsome
    have h := processFragments_text frags initSP
    have h1 : (processFragments initSP frags).accumulatedText =
        (textRef (textsOf frags)).1 := congrArg Prod.fst h
    rw [hacc, h1]

/-- C1 witness: a concrete text-only run where the amended statement
applies. -/
theorem C1_amended_witness :
    (∀ f ∈ [(⟨some "Language: js\nhello".toList, none, none, none⟩ : Fragment)],
      onlyText f) ∧
    (processFragments initSP
      [⟨some "Language: js\nhello".toList, none, none, none⟩]).textCard =
      some "hello".toList ∧
    id "hello".toList =
      id ((textRef (textsOf
        [⟨some "Language: js\nhello".toList, none, none, none⟩])).1) :=
  ⟨by decide, by decide,
    C1_amended_text_rendering
      [⟨some "Language: js\nhello".toList, none, none, none⟩] id
      (by decide) "hello".toList (by decide)⟩

/-- C2, counterexample: a fragment whose tool-invocation list is defined
but empty (`functionCalls = []` is truthy in the source's
`if (!functionCalls) return`) creates the tool-call card, although no
non-empty invocation list was ever processed. -/
theorem C2_counterexample : ¬claimC2 := by
  intro h
  exact absurd ((h [⟨none, some [], none, none⟩]).mp (by decide)) (by decide)

/-- C2 (amended): the tool-call card exists iff, among the fragments
processed after the last fragment whose executable-code payload is
present and non-empty (all fragments, when there is none), some fragment
carries a defined — possibly empty — tool-invocation list. -/
theorem C2_amended_toolCard_iff (frags : List Fragment) :
    (processFragments initSP frags).toolCallCard.isSome =
      (frags.reverse.takeWhile (fun f => !effExec f)).any fcDefined := by
  rw [processFragments_toolCard]
  simp [initSP]

/-- C3, counterexample: a tool-invocation fragment arriving after the
executable-code fragment recreates the tool-call card, so the final
state holds both the tool-call card and the code card. -/
theorem C3_counterexample : ¬claimC3 := by
  intro h
  exact h [⟨none, none, some "x".toList, none⟩,
           ⟨none, some [some "y".toList], none, none⟩] (by decide)

/-- C3 (amended): the arrival of executable code retires any open
tool-call card, so whenever no fragment carrying a tool-invocation list
arrives after a fragment carrying non-empty executable code, the
tool-call card and the code card are never both present in the final
state. -/
theorem C3_amended_mutual_exclusion (frags : List Fragment)
    (h : noToolAfterExec frags = true) :
    ¬((processFragments initSP frags).toolCallCard.isSome = true ∧
      (processFragments initSP frags).codeCard.isSome = true) := by
  rintro ⟨htool, hcode⟩
  rw [processFragments_toolCard] at htool
  rw [processFragments_codeCard] at hcode
  simp only [initSP, Option.isSome_none, Bool.and_false, Bool.or_false] at htool hcode
  obtain ⟨f, hfmem, hfdef⟩ := List.any_eq_true.mp htool
  obtain ⟨g, hgmem, hgex⟩ := List.any_eq_true.mp hcode
  have hsplit : frags =
      (frags.reverse.dropWhile (fun f => !effExec f)).reverse ++
      (frags.reverse.takeWhile (fun f => !effExec f)).reverse := by
    conv_lhs => rw [← List.reverse_reverse frags,
      ← List.takeWhile_append_dropWhile (fun f => !effExec f) frags.reverse]
    rw [List.reverse_append]
  have hg1 : g ∈ (frags.reverse.dropWhile (fun f => !effExec f)).reverse := by
    rw [hsplit] at hgmem
    rcases List.mem_append.mp hgmem with hg | hg
    · exact hg
    · have := List.mem_takeWhile_imp (List.mem_reverse.mp hg)
      rw [hgex] at this
      cases this
  have hf1 : f ∈ (frags.reverse.takeWhile (fun f => !effExec f)).reverse :=
    List.mem_reverse.mpr hfmem
  have hnone := noToolAfterExec_split
    ((frags.reverse.dropWhile (fun f => !effExec f)).reverse)
    ((frags.reverse.takeWhile (fun f => !effExec f)).reverse)
    (by rw [← hsplit]; exact h) g hg1 hgex f hf1
  rw [fcDefined, hnone] at hfdef
  cases hfdef

/-- C3 witness: a run where the tool call precedes the executable code;
the amended exclusion applies and the cards are indeed exclusive. -/
theorem C3_amended_witness :
    noToolAfterExec [(⟨none, some [some "y".toList], none, none⟩ : Fragment),
      ⟨none, none, some "x".toList, none⟩] = true ∧
    ¬((processFragments initSP [(⟨none, some [some "y".toList], none, none⟩ : Fragment),
        ⟨none, none, some "x".toList, none⟩]).toolCallCard.isSome = true ∧
      (processFragments initSP [(⟨none, some [some "y".toList], none, none⟩ : Fragment),
        ⟨none, none, some "x".toList, none⟩]).codeCard.isSome = true) :=
  ⟨by decide,
    C3_amended_mutual_exclusion
      [⟨none, some [some "y".toList], none, none⟩,
       ⟨none, none, some "x".toList, none⟩] (by decide)⟩

/-- C4, counterexample: a second `Language:` marker later in the stream
is matched again (the first was stripped, so the scan finds the new
one) and overwrites `detectedLanguage` — it does not persist. -/
theorem C4_counterexample : ¬claimC4 := by
  intro h
  have := h [⟨some "Language: js x".toList, none, none, none⟩]
    [⟨some " Language: ruby y".toList, none, none, none⟩] (by decide)
  exact absurd this (by decide)

/-- C4 (amended): `detectedLanguage` starts at the fallback `python` and
is updated only by extracting a `Language: <name>` marker from the
accumulated text; every matched marker is stripped and consumed, and
when several markers arrive across the turn each is extracted in order,
the most recent one determining `detectedLanguage`. -/
theorem C4_amended_last_marker_wins (frags : List Fragment) :
    (processFragments initSP frags).detectedLanguage =
      (markerLog (textsOf frags)).getLastD "python".toList := by
  have h := processFragments_text frags initSP
  have h2 : (processFragments initSP frags).detectedLanguage =
      (List.foldl textStep ([], "python".toList) (textsOf frags)).2 :=
    congrArg Prod.snd h
  rw [h2, textStep_lang_log]
  rfl

/-- C5, counterexample: the source strips with the global regex
`/\[.*?\]\s/g`, so a bracketed token in the middle of the message is
removed too — the displayed message is not the original with only a
leading prefix removed. -/
theorem C5_counterexample : ¬claimC5 := by
  intro h
  have := h ⟨[], some "see [note] here".toList⟩ "see [note] here".toList
    rfl (by decide)
  exact absurd this (by decide)

/-- C5 (amended): when a turn throws mid-stream, all partial cards are
discarded and replaced by exactly one error card whose displayed message
is the error message (or the fixed fallback when the message is empty)
with every occurrence of a bracketed token followed by whitespace
removed — not only a leading one — and the generation flag and stop
control are reset. -/
theorem C5_amended_error_turn (r : StreamResult) (msg : Str)
    (hf : r.failure = some msg) :
    (handleFormSubmit r).errorCard =
      some (stripBrackets (if msg = [] then defaultErrMsg else msg)) ∧
    (handleFormSubmit r).cards = initSP ∧
    (handleFormSubmit r).isGenerating = false ∧
    (handleFormSubmit r).stopHidden = true := by
  simp [handleFormSubmit, hf]

/-- C5 witness: a concrete failing turn with a mid-message bracketed
token. -/
theorem C5_amended_witness :
    (⟨[], some "a [b] c".toList⟩ : StreamResult).failure =
      some "a [b] c".toList ∧
    ((handleFormSubmit ⟨[], some "a [b] c".toList⟩).errorCard =
      some (stripBrackets
        (if "a [b] c".toList = ([] : Str) then defaultErrMsg
         else "a [b] c".toList)) ∧
     (handleFormSubmit ⟨[], some "a [b] c".toList⟩).cards = initSP ∧
     (handleFormSubmit ⟨[], some "a [b] c".toList⟩).isGenerating = false ∧
     (handleFormSubmit ⟨[], some "a [b] c".toList⟩).stopHidden = true) :=
  ⟨rfl, C5_amended_error_turn ⟨[], some "a [b] c".toList⟩ "a [b] c".toList rfl⟩

/-- C6: a defined execution-result payload — the empty string included —
always yields a present result card showing the payload verbatim; an
undefined payload changes nothing, and after a whole run the result card
is absent exactly when no fragment carried a defined payload. -/
theorem C6_result_defined_including_empty :
    (∀ (s : SPState) (v : Str), (updateResult (some v) s).resultCard = some v) ∧
    (∀ s : SPState, updateResult none s = s) ∧
    (∀ frags : List Fragment,
      ((processFragments initSP frags).resultCard = none ↔
        ∀ f ∈ frags, f.codeExecutionResult = none)) := by
  refine ⟨fun s v => rfl, fun s => rfl, fun frags => ?_⟩
  rw [processFragments_resultCard]
  have : ∀ (l : List Fragment) (a : Option Str),
      (l.foldl (fun acc f =>
        match f.codeExecutionResult with
        | some v => some v
        | none => acc) a = none) ↔
      (a = none ∧ ∀ f ∈ l, f.codeExecutionResult = none) := by
    intro l
    induction l with
    | nil => intro a; simp
    | cons f rest ih =>
      intro a
      cases hres : f.codeExecutionResult with
      | none =>
        simp only [List.foldl_cons, hres, ih, List.mem_cons]
        constructor
        · rintro ⟨ha, hall⟩
          exact ⟨ha, by rintro g (rfl | hg); exacts [hres, hall g hg]⟩
        · rintro ⟨ha, hall⟩
          exact ⟨ha, fun g hg => hall g (Or.inr hg)⟩
      | some v =>
        simp only [List.foldl_cons, hres, ih, List.mem_cons]
        constructor
        · rintro ⟨h, _⟩; cases h
        · rintro ⟨_, hall⟩
          have := hall f (Or.inl rfl)
          rw [hres] at this
          cases this
  rw [this]
  simp [initSP]

/-- C7: with the generation flag cleared at fragment-read boundary `k`
(the cooperative check `if (!this.state.isGenerating) break`), the run
applies exactly the fragments before the boundary and ignores every
later one — the final state is that of processing the length-`k`
prefix. -/
theorem C7_stop_boundary (k : Nat) (frags : List Fragment) :
    processWithStop (fun j => decide (j < k)) initSP 0 frags =
      processFragments initSP (frags.take k) := by
  rw [processWithStop_take, Nat.sub_zero]

/-- C8: applying the same executable-code payload twice in succession is
the same as applying it once — the code element's content is a snapshot
replacement, never a concatenation (the whole interpreter state is
unchanged by the replay). -/
theorem C8_executableCode_idempotent (ec : Option Str) (s : SPState) :
    updateExecutableCode ec (updateExecutableCode ec s) =
      updateExecutableCode ec s := by
  cases ec with
  | none => rfl
  | some c =>
    by_cases hc : c = []
    · simp [updateExecutableCode, hc]
    · simp only [updateExecutableCode, if_neg hc]
      cases hcc : s.codeCard with
      | none => simp
      | some p => obtain ⟨lbl, old⟩ := p; simp

/-- C9 (code behaviour at the failing input): `updateText` is `async`
but `process` does not await it, so a markdown rendering failure rejects
a floating promise — the turn finishes with no error card, the text card
present with an empty body, and an escaped rejection; the outer turn
handler never sees the failure, contradicting the claim. -/
theorem C9_unawaited_render_failure :
    (handleFormSubmitE failMd
      ⟨[⟨some "hello".toList, none, none, none⟩], none⟩).errorCard = none ∧
    (handleFormSubmitE failMd
      ⟨[⟨some "hello".toList, none, none, none⟩], none⟩).cards.rejected = true ∧
    (handleFormSubmitE failMd
      ⟨[⟨some "hello".toList, none, none, none⟩], none⟩).cards.textCardPresent
      = true ∧
    (handleFormSubmitE failMd
      ⟨[⟨some "hello".toList, none, none, none⟩], none⟩).cards.textBodyHtml
      = [] := by
  decide

/-- C10: a present-but-empty text delta is ignored entirely by the text
channel — the state (card, accumulated text, rendered body) is untouched
— and the text card exists precisely when some fragment carried a
non-empty delta. -/
theorem C10_empty_delta_ignored :
    (∀ s : SPState, updateText (some []) s = s) ∧
    (∀ frags : List Fragment,
      (processFragments initSP frags).textCard.isSome =
        frags.any (fun f => !(f.text.getD []).isEmpty)) := by
  refine ⟨fun s => rfl, fun frags => ?_⟩
  rw [processFragments_textCard]
  simp [initSP]

end Helix

/-! ### Concrete evaluations of the embedding (regression checks) -/

example : Helix.findMarker "ab Language: JS\nx".toList =
    some ("Language: JS".toList, "JS".toList) := by decide
example : Helix.trimStr "  a b \n".toList = "a b".toList := by decide
example : Helix.stripBrackets "see [note] here [x] end".toList =
    "see here end".toList := by decide
example : Helix.stripBrackets "[500]".toList = "[500]".toList := by decide
example : Helix.stripBrackets "[a [b] c] d".toList = "c] d".toList := by decide

-- spec §8 scenario: text with marker, then executable code
example :
    Helix.processFragments Helix.initSP
      [⟨some "Explanation. Language: javascript\n".toList, none, none, none⟩,
       ⟨none, none, some "console.log(1)".toList, none⟩] =
    { accumulatedText := "Explanation.".toList
      detectedLanguage := "javascript".toList
      textCard := some "Explanation.".toList
      toolCallCard := none
      codeCard := some ("javascript".toList, "console.log(1)".toList)
      resultCard := none
      elementsToHighlight := 1 } := by decide

-- empty functionCalls array still creates the card
example :
    (Helix.processFragments Helix.initSP [⟨none, some [], none, none⟩]).toolCallCard
      = some [] := by decide

-- tool call after executable code: both cards present
example :
    ((Helix.processFragments Helix.initSP
      [⟨none, none, some "x".toList, none⟩,
       ⟨none, some [some "y".toList], none, none⟩]).toolCallCard.isSome &&
     (Helix.processFragments Helix.initSP
      [⟨none, none, some "x".toList, none⟩,
       ⟨none, some [some "y".toList], none, none⟩]).codeCard.isSome) = true := by decide

-- two markers: second one overrides the first
example :
    (Helix.processFragments Helix.initSP
      [⟨some "Language: js x".toList, none, none, none⟩,
       ⟨some " Language: ruby y".toList, none, none, none⟩]).detectedLanguage
      = "ruby".toList := by decide
